import Mathlib

/-!
Verification of the ProxyChains configuration rewrite and the orchestrator
of `toxy.py` (repository incrediBit/toxy), via a shallow embedding of the
script's logic into Lean.
-/

namespace Toxy

/-- ASCII whitespace characters recognised by Python's `str.strip()`. -/
def isPySpace (c : Char) : Bool :=
  c = ' ' || c = '\t' || c = '\n' || c = '\r' || c = '\x0b' || c = '\x0c'

/-- Drop leading and trailing whitespace from a character list
(Python `str.strip()` on the underlying characters). -/
def stripChars (l : List Char) : List Char :=
  ((l.dropWhile isPySpace).reverse.dropWhile isPySpace).reverse

/-- Python `str.strip()`. -/
def pyStrip (s : String) : String := ⟨stripChars s.data⟩

/-- Does the first character list start with the second one? -/
def startsWithL : List Char → List Char → Bool
  | _, [] => true
  | [], _ :: _ => false
  | c :: cs, p :: ps => c = p && startsWithL cs ps

/-- Python `s.startswith(pat)`. -/
def pyStartswith (s pat : String) : Bool := startsWithL s.data pat.data

/-- Does `sub` occur as a contiguous sublist of the second list? -/
def containsSubL : List Char → List Char → Bool
  | sub, [] => decide (sub = [])
  | sub, c :: cs => startsWithL (c :: cs) sub || containsSubL sub cs

/-- Python `sub in s` on strings (substring containment). -/
def pyContains (s sub : String) : Bool := containsSubL sub.data s.data

/-- The test on line 100 of `toxy.py`:
`line.strip().startswith("socks") or line.strip().startswith("http")`. -/
def isDirective (line : String) : Bool :=
  pyStartswith (pyStrip line) "socks" || pyStartswith (pyStrip line) "http"

/-- The test on line 103 of `toxy.py`: `"[ProxyList]" in line`. -/
def hasProxyListMarker (line : String) : Bool := pyContains line "[ProxyList]"

/-- Split a character stream into Python `readlines`-style lines; `acc` holds
the (reversed) characters of the current unfinished line. -/
def linesAux : List Char → List Char → List String
  | [], acc => if acc = [] then [] else [⟨acc.reverse⟩]
  | c :: cs, acc =>
    if c = '\n' then ⟨acc.reverse ++ ['\n']⟩ :: linesAux cs []
    else linesAux cs (c :: acc)

/-- Python `f.readlines()`: the lines of `s`, each keeping its trailing
newline; a final fragment without a newline is kept as a last line. -/
def readlines (s : String) : List String := linesAux s.data []

/-- Concatenation of a list of strings (what consecutive `f.write` calls
produce). -/
def strConcat : List String → String
  | [] => ""
  | s :: rest => s ++ strConcat rest

/-- One iteration of the line loop of `configure_proxychains`
(`toxy.py` lines 98-107): the accumulator is (text written so far,
`found_proxy_list`). -/
def configStep (acc : String × Bool) (line : String) : String × Bool :=
  if isDirective line then (acc.1 ++ ("# " ++ line), acc.2)
  else if hasProxyListMarker line then (acc.1 ++ line, true)
  else (acc.1 ++ line, acc.2)

/-- The full line loop of `configure_proxychains`: text written by the
loop, and the final value of `found_proxy_list`. -/
def configLoop (lines : List String) : String × Bool :=
  lines.foldl configStep ("", false)

/-- What the loop writes for a single line: directives are commented out,
all other lines are copied unchanged. -/
def processLine (line : String) : String :=
  if isDirective line then "# " ++ line else line

/-- A line that sets `found_proxy_list`: it reaches the `elif` branch
(so it is not a directive) and contains the `[ProxyList]` marker. -/
def isHeaderLine (line : String) : Bool :=
  !isDirective line && hasProxyListMarker line

/-- The final value of `found_proxy_list` for a given file content. -/
def headerFound (content : String) : Bool := (configLoop (readlines content)).2

/-- The new content `configure_proxychains` writes to the configuration
file (`toxy.py` lines 93-116): the processed lines, then either the Tor
entry alone (when `[ProxyList]` was found) or a synthesized header block
followed by the Tor entry. -/
def configureBody (content : String) : String :=
  let r := configLoop (readlines content)
  if r.2 = true then r.1 ++ "socks5 127.0.0.1 9050\n"
  else r.1 ++ ("\n[ProxyList]\n" ++ "socks5 127.0.0.1 9050\n")

/-- The configuration file and its backup, as far as
`configure_proxychains` touches them. -/
structure ConfigFs where
  config : Option String
  backup : Option String
  deriving DecidableEq

/-- One run of `configure_proxychains` on the filesystem fragment it
touches: missing file aborts (`none`, modelling `sys.exit(1)`);
otherwise the current content is copied to the backup (overwriting it)
and the rewritten content replaces the file. -/
def configureStepFs (fs : ConfigFs) : Option ConfigFs :=
  match fs.config with
  | none => none
  | some content => some ⟨some (configureBody content), some content⟩

/-- An observable action of the script on the system. -/
inductive Effect where
  | runCommand (cmd : String)
  | removeFile (path : String)
  | writeFile (path : String) (content : String)
  | copyFile (src dst : String)
  deriving DecidableEq

/-- The environment the script runs in: effective uid, which paths exist,
each shell command's exit code, and the ProxyChains config content. -/
structure World where
  euid : Nat
  fileExists : String → Bool
  cmdExit : String → Int
  configContent : String

def CMD_PURGE : String := "apt purge -y tor torbrowser-launcher"

def CMD_AUTOREMOVE : String := "apt autoremove -y"

def CMD_UPDATE : String := "apt update"

def CMD_KEY : String :=
  "wget -qO- https://deb.torproject.org/torproject.org/A3C4F0F979CAA22CDBA8F512EE8CBC9E886DDD89.asc | gpg --dearmor | tee /usr/share/keyrings/tor-archive-keyring.gpg >/dev/null"

def CMD_CHMOD : String := "chmod 644 /usr/share/keyrings/tor-archive-keyring.gpg"

def CMD_INSTALL : String := "apt install -y tor proxychains4"

def CMD_SYSTEMCTL : String := "systemctl enable --now tor"

def TOR_LIST_FILE : String := "/etc/apt/sources.list.d/torproject.list"

def GPG_KEY_FILE : String := "/usr/share/keyrings/tor-archive-keyring.gpg"

def CONFIG_FILE : String := "/etc/proxychains4.conf"

def REPO_LINE : String :=
  "deb [signed-by=/usr/share/keyrings/tor-archive-keyring.gpg] https://deb.torproject.org/torproject.org bookworm main"

/-- `runCmd` of `toxy.py`: run the command (recorded as an effect); when
`check` is set and the exit code is non-zero, abort with process exit 1. -/
def runCmd (w : World) (command : String) (check : Bool) :
    Option Nat × List Effect :=
  if check = true ∧ w.cmdExit command ≠ 0 then (some 1, [Effect.runCommand command])
  else (none, [Effect.runCommand command])

/-- Sequence two aborting computations, accumulating effects. -/
def seqE (a : Option Nat × List Effect) (b : Unit → Option Nat × List Effect) :
    Option Nat × List Effect :=
  match a.1 with
  | some code => (some code, a.2)
  | none => ((b ()).1, a.2 ++ (b ()).2)

/-- Step 1 of `toxy.py` (`cleanup_existing_install`). -/
def cleanup_existing_install (w : World) : Option Nat × List Effect :=
  seqE (runCmd w CMD_PURGE false) fun _ =>
  seqE (if w.fileExists TOR_LIST_FILE then (none, [Effect.removeFile TOR_LIST_FILE])
        else (none, [])) fun _ =>
  seqE (if w.fileExists GPG_KEY_FILE then (none, [Effect.removeFile GPG_KEY_FILE])
        else (none, [])) fun _ =>
  seqE (runCmd w CMD_AUTOREMOVE true) fun _ =>
  runCmd w CMD_UPDATE true

/-- Step 2 of `toxy.py` (`install_tor_and_proxychains`). -/
def install_tor_and_proxychains (w : World) : Option Nat × List Effect :=
  seqE (runCmd w CMD_KEY true) fun _ =>
  seqE (runCmd w CMD_CHMOD true) fun _ =>
  seqE (none, [Effect.writeFile TOR_LIST_FILE (REPO_LINE ++ "\n")]) fun _ =>
  seqE (runCmd w CMD_UPDATE true) fun _ =>
  runCmd w CMD_INSTALL true

/-- Step 3 of `toxy.py` (`configure_proxychains`): abort with exit 1 when
the config file is missing; otherwise back it up and write the rewritten
content. -/
def configure_proxychains (w : World) : Option Nat × List Effect :=
  if w.fileExists CONFIG_FILE = false then (some 1, [])
  else (none, [Effect.copyFile CONFIG_FILE (CONFIG_FILE ++ ".bak"),
               Effect.writeFile CONFIG_FILE (configureBody w.configContent)])

/-- Step 4 of `toxy.py` (`start_tor_and_provide_instructions`); the sleep
and the printed instructions have no modelled effect. -/
def start_tor_and_provide_instructions (w : World) : Option Nat × List Effect :=
  runCmd w CMD_SYSTEMCTL true

/-- `main` of `toxy.py`: after the interactive prompt, a root check
(exit 1 when not root, before any step runs), then the four steps in
order; full completion exits 0. Result: (process exit code, effects). -/
def mainRun (w : World) : Nat × List Effect :=
  if w.euid ≠ 0 then (1, [])
  else
    let r := seqE (cleanup_existing_install w) fun _ =>
             seqE (install_tor_and_proxychains w) fun _ =>
             seqE (configure_proxychains w) fun _ =>
             start_tor_and_provide_instructions w
    (r.1.getD 0, r.2)

/-- The commands `toxy.py` runs with `check=True` (the must-succeed flag). -/
def checkedCommands : List String :=
  [CMD_AUTOREMOVE, CMD_UPDATE, CMD_KEY, CMD_CHMOD, CMD_INSTALL, CMD_SYSTEMCTL]

/-- Effects the script can perform before the config rewrite: shell
commands, removals of the two cleanup paths, and the repository list
write. None of them is a backup copy or a write to the ProxyChains
configuration file. -/
def BenignEffect (e : Effect) : Prop :=
  (∃ cmd, e = Effect.runCommand cmd) ∨ (∃ p, e = Effect.removeFile p) ∨
    e = Effect.writeFile TOR_LIST_FILE (REPO_LINE ++ "\n")

/-- A line as produced by `readlines` on a newline-terminated file:
nonempty, ends with a newline, and contains no interior newline. -/
def ProperLine (e : String) : Prop :=
  e.data ≠ [] ∧ e.data.getLast? = some '\n' ∧ '\n' ∉ e.data.dropLast

/-- The file content ends with a newline character. -/
def EndsNL (s : String) : Prop := s.data.getLast? = some '\n'

instance (e : String) : Decidable (ProperLine e) :=
  inferInstanceAs
    (Decidable (e.data ≠ [] ∧ e.data.getLast? = some '\n' ∧ '\n' ∉ e.data.dropLast))

instance (s : String) : Decidable (EndsNL s) :=
  inferInstanceAs (Decidable (s.data.getLast? = some '\n'))

theorem properLine_mk {b : List Char} {e : String} (hb : '\n' ∉ b)
    (he : e.data = b ++ ['\n']) : ProperLine e := by
  refine ⟨?_, ?_, ?_⟩
  · rw [he]; exact List.append_ne_nil_of_right_ne_nil _ (by simp)
  · rw [he]; exact List.getLast?_concat _
  · rw [he, List.dropLast_concat]; exact hb

theorem ProperLine.decomp {e : String} (h : ProperLine e) :
    '\n' ∉ e.data.dropLast ∧ e.data = e.data.dropLast ++ ['\n'] := by
  obtain ⟨hne, hlast, hnl⟩ := h
  refine ⟨hnl, ?_⟩
  have h1 := List.dropLast_concat_getLast hne
  have h2 := List.getLast?_eq_getLast e.data hne
  rw [h2] at hlast
  have h3 : e.data.getLast hne = '\n' := by injection hlast
  rw [h3] at h1
  exact h1.symm

theorem linesAux_chunk (b : List Char) (hb : '\n' ∉ b) :
    ∀ (rest acc : List Char),
      linesAux (b ++ '\n' :: rest) acc =
        ⟨acc.reverse ++ (b ++ ['\n'])⟩ :: linesAux rest [] := by
  induction b with
  | nil => intro rest acc; simp [linesAux]
  | cons c cs ih =>
    intro rest acc
    have hc : c ≠ '\n' := fun h => hb (h ▸ List.mem_cons_self c cs)
    have hcs : '\n' ∉ cs := fun h => hb (List.mem_cons_of_mem c h)
    have h1 : linesAux ((c :: cs) ++ '\n' :: rest) acc =
        linesAux (cs ++ '\n' :: rest) (c :: acc) := by
      simp only [List.cons_append, linesAux]
      rw [if_neg hc]
      rfl
    rw [h1, ih hcs rest (c :: acc)]
    simp

theorem readlines_cons_of_proper {e : String} (he : ProperLine e) (s : String) :
    readlines (e ++ s) = e :: readlines s := by
  obtain ⟨hnl, hdec⟩ := he.decomp
  show linesAux (e ++ s).data [] = e :: linesAux s.data []
  rw [String.data_append, hdec, List.append_assoc, List.singleton_append,
    linesAux_chunk _ hnl]
  simp [← hdec]

theorem strConcat_append_readlines :
    ∀ (ls : List String), (∀ e ∈ ls, ProperLine e) →
      ∀ (s : String), readlines (strConcat ls ++ s) = ls ++ readlines s := by
  intro ls
  induction ls with
  | nil => intro _ s; simp [strConcat]
  | cons e rest ih =>
    intro h s
    have he : ProperLine e := h e (List.mem_cons_self e rest)
    have hrest : ∀ x ∈ rest, ProperLine x := fun x hx => h x (List.mem_cons_of_mem e hx)
    show readlines ((e ++ strConcat rest) ++ s) = (e :: rest) ++ readlines s
    rw [String.append_assoc, readlines_cons_of_proper he, ih hrest]
    rfl

theorem linesAux_noNL :
    ∀ (l acc : List Char), '\n' ∉ l → acc.reverse ++ l ≠ [] →
      linesAux l acc = [⟨acc.reverse ++ l⟩] := by
  intro l
  induction l with
  | nil =>
    intro acc _ hne
    have hacc : acc ≠ [] := by
      intro h; apply hne; simp [h]
    simp [linesAux, hacc]
  | cons c cs ih =>
    intro acc hnl _
    have hc : c ≠ '\n' := fun h => hnl (h ▸ List.mem_cons_self c cs)
    have hcs : '\n' ∉ cs := fun h => hnl (List.mem_cons_of_mem c h)
    have h1 : linesAux (c :: cs) acc = linesAux cs (c :: acc) := by
      simp only [linesAux]
      rw [if_neg hc]
    rw [h1, ih (c :: acc) hcs (by simp)]
    simp

theorem readlines_noNL {x : String} (hx : x.data ≠ []) (hn : '\n' ∉ x.data) :
    readlines x = [x] := by
  show linesAux x.data [] = [x]
  rw [linesAux_noNL x.data [] hn (by simpa using hx)]
  simp

theorem linesAux_all_proper :
    ∀ (l acc : List Char), '\n' ∉ acc → l.getLast? = some '\n' →
      ∀ e ∈ linesAux l acc, ProperLine e := by
  intro l
  induction l with
  | nil => intro acc _ hl; simp at hl
  | cons c cs ih =>
    intro acc hacc hl e he
    by_cases hc : c = '\n'
    · subst hc
      rw [show linesAux ('\n' :: cs) acc =
            ⟨acc.reverse ++ ['\n']⟩ :: linesAux cs [] by simp [linesAux]] at he
      rcases List.mem_cons.mp he with h | h
      · exact h ▸ properLine_mk (by simpa using hacc) rfl
      · match cs, hl, h with
        | [], _, h => simp [linesAux] at h
        | d :: ds, hl, h =>
          exact ih [] (by simp) (by simpa using hl) e h
    · have h1 : linesAux (c :: cs) acc = linesAux cs (c :: acc) := by
        simp only [linesAux]
        rw [if_neg hc]
      rw [h1] at he
      match cs, hl, he with
      | [], hl, he =>
        exfalso; apply hc; simpa using hl
      | d :: ds, hl, he =>
        refine ih (c :: acc) ?_ (by simpa using hl) e he
        intro h
        rcases List.mem_cons.mp h with h | h
        · exact hc h.symm
        · exact hacc h

theorem endsNL_all_proper {c : String} (h : EndsNL c) :
    ∀ e ∈ readlines c, ProperLine e :=
  linesAux_all_proper c.data [] (by simp) h

theorem foldl_configStep (lines : List String) :
    ∀ acc, lines.foldl configStep acc =
      (acc.1 ++ strConcat (lines.map processLine), acc.2 || lines.any isHeaderLine) := by
  induction lines with
  | nil => intro acc; simp [strConcat]
  | cons l rest ih =>
    intro acc
    rw [List.foldl_cons, ih]
    by_cases hd : isDirective l
    · simp [configStep, processLine, isHeaderLine, hd, strConcat, String.append_assoc]
    · by_cases hm : hasProxyListMarker l
      · simp [configStep, processLine, isHeaderLine, hd, hm, strConcat,
          String.append_assoc]
      · simp [configStep, processLine, isHeaderLine, hd, hm, strConcat,
          String.append_assoc]

theorem configLoop_eq (lines : List String) :
    configLoop lines = (strConcat (lines.map processLine), lines.any isHeaderLine) := by
  rw [configLoop, foldl_configStep]
  simp

theorem headerFound_eq (c : String) :
    headerFound c = (readlines c).any isHeaderLine := by
  rw [headerFound, configLoop_eq]

theorem processLine_proper {e : String} (h : ProperLine e) :
    ProperLine (processLine e) := by
  obtain ⟨hnl, hdec⟩ := h.decomp
  rw [processLine]
  by_cases hd : isDirective e
  · rw [if_pos hd]
    refine properLine_mk (b := '#' :: ' ' :: e.data.dropLast) ?_ ?_
    · intro hmem
      rcases List.mem_cons.mp hmem with h1 | h1
      · exact absurd h1 (by decide)
      · rcases List.mem_cons.mp h1 with h2 | h2
        · exact absurd h2 (by decide)
        · exact hnl h2
    · rw [String.data_append]
      conv_lhs => rw [hdec]
      rfl
  · rw [if_neg hd]
    exact ⟨by rw [hdec]; exact List.append_ne_nil_of_right_ne_nil _ (by simp),
      by rw [hdec]; exact List.getLast?_concat _, hnl⟩

/-- Line-level description of the rewrite for files all of whose lines are
proper (in particular every newline-terminated file): the output lines are
the processed input lines followed by the appended block. -/
theorem readlines_configureBody {c : String}
    (h : ∀ e ∈ readlines c, ProperLine e) :
    readlines (configureBody c) =
      (readlines c).map processLine ++
        (if headerFound c = true then ["socks5 127.0.0.1 9050\n"]
         else ["\n", "[ProxyList]\n", "socks5 127.0.0.1 9050\n"]) := by
  have hmap : ∀ e ∈ (readlines c).map processLine, ProperLine e := by
    intro e he
    obtain ⟨x, hx, hxe⟩ := List.mem_map.mp he
    exact hxe ▸ processLine_proper (h x hx)
  have hbody : (configLoop (readlines c)).1 = strConcat ((readlines c).map processLine) := by
    rw [configLoop_eq]
  rw [configureBody]
  by_cases hf : (configLoop (readlines c)).2 = true
  · rw [if_pos hf, hbody, strConcat_append_readlines _ hmap]
    rw [show headerFound c = true from hf, if_pos rfl]
    norm_num
    decide
  · rw [if_neg hf, hbody, strConcat_append_readlines _ hmap]
    rw [show headerFound c = (configLoop (readlines c)).2 from rfl,
      if_neg hf]
    norm_num
    decide

theorem dropWhile_append_last {p : Char → Bool} {a : Char} (ha : p a = false) :
    ∀ l : List Char, ∃ t, (l ++ [a]).dropWhile p = t ++ [a] := by
  intro l
  induction l with
  | nil => exact ⟨[], by simp [List.dropWhile_cons, ha]⟩
  | cons c cs ih =>
    by_cases hc : p c = true
    · obtain ⟨t, ht⟩ := ih
      exact ⟨t, by rw [List.cons_append, List.dropWhile_cons, if_pos hc, ht]⟩
    · exact ⟨c :: cs, by rw [List.cons_append, List.dropWhile_cons, if_neg hc]⟩

theorem stripChars_hash (x : List Char) :
    ∃ t, stripChars ('#' :: x) = '#' :: t := by
  rw [stripChars]
  have h1 : ('#' :: x).dropWhile isPySpace = '#' :: x := by
    rw [List.dropWhile_cons, if_neg (by decide)]
  rw [h1, List.reverse_cons]
  obtain ⟨t, ht⟩ := dropWhile_append_last (p := isPySpace) (a := '#') (by decide) x.reverse
  rw [ht, List.reverse_append]
  exact ⟨t.reverse, by simp⟩

theorem startsWithL_cons_ne {c p : Char} (h : c ≠ p) (cs ps : List Char) :
    startsWithL (c :: cs) (p :: ps) = false := by
  simp [startsWithL, h]

/-- A commented-out line is never recognised as a proxy directive. -/
theorem isDirective_hash (l : String) : isDirective ("# " ++ l) = false := by
  obtain ⟨t, ht⟩ := stripChars_hash (' ' :: l.data)
  have hd : ("# " ++ l).data = '#' :: ' ' :: l.data := rfl
  rw [isDirective, pyStrip, hd, ht]
  have hs : ("socks" : String).data = 's' :: 'o' :: 'c' :: 'k' :: 's' :: [] := rfl
  have hh : ("http" : String).data = 'h' :: 't' :: 't' :: 'p' :: [] := rfl
  rw [pyStartswith, pyStartswith, hs, hh]
  rw [startsWithL_cons_ne (by decide), startsWithL_cons_ne (by decide)]
  rfl

/-- No processed line equals the appended Tor entry: directives get a
`# ` in front, and the entry itself is a directive so is never copied
through unchanged. -/
theorem processLine_ne_entry (l : String) :
    processLine l ≠ "socks5 127.0.0.1 9050\n" := by
  rw [processLine]
  by_cases hd : isDirective l
  · rw [if_pos hd]
    intro h
    have h1 := congrArg String.data h
    rw [String.data_append] at h1
    have h0 : (("# " : String).data ++ l.data).head? = some '#' := rfl
    rw [h1] at h0
    exact absurd h0 (by decide)
  · rw [if_neg hd]
    intro h
    rw [h] at hd
    exact hd (by decide)

theorem endsNL_append_right {t : String} (h : EndsNL t) (s : String) :
    EndsNL (s ++ t) := by
  rw [EndsNL, String.data_append, List.getLast?_append]
  rw [EndsNL] at h
  rw [h]
  rfl

/-- The rewritten content always ends with a newline. -/
theorem endsNL_configureBody (c : String) : EndsNL (configureBody c) := by
  rw [configureBody]
  by_cases hf : (configLoop (readlines c)).2 = true
  · rw [if_pos hf]
    exact endsNL_append_right (by decide) _
  · rw [if_neg hf]
    exact endsNL_append_right (by decide) _

theorem strConcat_append (a b : List String) :
    strConcat (a ++ b) = strConcat a ++ strConcat b := by
  induction a with
  | nil => simp [strConcat]
  | cons e rest ih =>
    show strConcat ((e :: rest) ++ b) = (e ++ strConcat rest) ++ strConcat b
    rw [List.cons_append]
    show e ++ strConcat (rest ++ b) = (e ++ strConcat rest) ++ strConcat b
    rw [ih, String.append_assoc]

theorem readlines_proper_single {e : String} (he : ProperLine e) :
    readlines e = [e] := by
  have h := readlines_cons_of_proper he ""
  rwa [String.append_empty] at h

theorem noNL_processLine {l : String} (h : '\n' ∉ l.data) :
    '\n' ∉ (processLine l).data := by
  rw [processLine]
  by_cases hd : isDirective l
  · rw [if_pos hd]
    intro hmem
    rw [show ("# " ++ l).data = '#' :: ' ' :: l.data from rfl] at hmem
    rcases List.mem_cons.mp hmem with h1 | h1
    · exact absurd h1 (by decide)
    · rcases List.mem_cons.mp h1 with h2 | h2
      · exact absurd h2 (by decide)
      · exact h h2
  · rw [if_neg hd]
    exact h

theorem processLine_data_ne_nil {l : String} (h : l.data ≠ []) :
    (processLine l).data ≠ [] := by
  rw [processLine]
  by_cases hd : isDirective l
  · rw [if_pos hd]
    rw [show ("# " ++ l).data = '#' :: ' ' :: l.data from rfl]
    simp
  · rw [if_neg hd]
    exact h

/-- The kept lines of the input (neither directives nor marker lines)
form a sublist of the processed lines. -/
theorem filter_other_sublist (ls : List String) :
    List.Sublist (ls.filter fun l => !isDirective l && !hasProxyListMarker l)
      (ls.map processLine) := by
  induction ls with
  | nil => simp
  | cons l rest ih =>
    rw [List.filter_cons, List.map_cons]
    by_cases hd : isDirective l
    · rw [if_neg (by simp [hd])]
      exact ih.cons _
    · by_cases hm : hasProxyListMarker l
      · rw [if_neg (by simp [hm])]
        exact ih.cons _
      · rw [if_pos (by simp [hd, hm])]
        rw [show processLine l = l from by rw [processLine, if_neg hd]]
        exact ih.cons₂ _

theorem runCmd_fst (w : World) (cmd : String) (ch : Bool) :
    (runCmd w cmd ch).1 =
      if ch = true ∧ w.cmdExit cmd ≠ 0 then some 1 else none := by
  rw [runCmd]
  split_ifs <;> rfl

theorem runCmd_snd (w : World) (cmd : String) (ch : Bool) :
    (runCmd w cmd ch).2 = [Effect.runCommand cmd] := by
  rw [runCmd]
  split_ifs <;> rfl

theorem seqE_fst (a : Option Nat × List Effect)
    (b : Unit → Option Nat × List Effect) :
    (seqE a b).1 = a.1.or ((b ()).1) := by
  cases h : a.1 <;> simp [seqE, h]

theorem seqE_mem_snd {e : Effect} {a : Option Nat × List Effect}
    {b : Unit → Option Nat × List Effect} (h : e ∈ (seqE a b).2) :
    e ∈ a.2 ∨ e ∈ (b ()).2 := by
  cases ha : a.1 with
  | none =>
    simp only [seqE, ha] at h
    exact List.mem_append.mp h
  | some c =>
    simp only [seqE, ha] at h
    exact Or.inl h

theorem cleanup_fst (w : World) :
    (cleanup_existing_install w).1 =
      if w.cmdExit CMD_AUTOREMOVE = 0 ∧ w.cmdExit CMD_UPDATE = 0 then none
      else some 1 := by
  rw [cleanup_existing_install, seqE_fst, seqE_fst, seqE_fst, seqE_fst,
    runCmd_fst, runCmd_fst, runCmd_fst]
  by_cases h1 : w.cmdExit CMD_AUTOREMOVE = 0 <;>
    by_cases h2 : w.cmdExit CMD_UPDATE = 0 <;>
    simp [h1, h2, apply_ite Prod.fst]

theorem install_fst (w : World) :
    (install_tor_and_proxychains w).1 =
      if w.cmdExit CMD_KEY = 0 ∧ w.cmdExit CMD_CHMOD = 0 ∧
         w.cmdExit CMD_UPDATE = 0 ∧ w.cmdExit CMD_INSTALL = 0 then none
      else some 1 := by
  rw [install_tor_and_proxychains, seqE_fst, seqE_fst, seqE_fst, seqE_fst,
    runCmd_fst, runCmd_fst, runCmd_fst, runCmd_fst]
  by_cases h1 : w.cmdExit CMD_KEY = 0 <;>
    by_cases h2 : w.cmdExit CMD_CHMOD = 0 <;>
    by_cases h3 : w.cmdExit CMD_UPDATE = 0 <;>
    by_cases h4 : w.cmdExit CMD_INSTALL = 0 <;>
    simp [h1, h2, h3, h4]

theorem configure_fst (w : World) :
    (configure_proxychains w).1 =
      if w.fileExists CONFIG_FILE = true then none else some 1 := by
  by_cases h : w.fileExists CONFIG_FILE <;> simp [configure_proxychains, h]

theorem start_fst (w : World) :
    (start_tor_and_provide_instructions w).1 =
      if w.cmdExit CMD_SYSTEMCTL = 0 then none else some 1 := by
  rw [start_tor_and_provide_instructions, runCmd_fst]
  by_cases h : w.cmdExit CMD_SYSTEMCTL = 0 <;> simp [h]

theorem mainRun_fst (w : World) :
    (mainRun w).1 =
      if w.euid = 0 ∧ w.fileExists CONFIG_FILE = true ∧
         w.cmdExit CMD_AUTOREMOVE = 0 ∧ w.cmdExit CMD_UPDATE = 0 ∧
         w.cmdExit CMD_KEY = 0 ∧ w.cmdExit CMD_CHMOD = 0 ∧
         w.cmdExit CMD_INSTALL = 0 ∧ w.cmdExit CMD_SYSTEMCTL = 0
      then 0 else 1 := by
  by_cases he : w.euid = 0
  · have hne : ¬ w.euid ≠ 0 := by simpa using he
    simp only [mainRun, if_neg hne, seqE_fst, cleanup_fst, install_fst,
      configure_fst, start_fst]
    by_cases h1 : w.cmdExit CMD_AUTOREMOVE = 0 <;>
      by_cases h2 : w.cmdExit CMD_UPDATE = 0 <;>
      by_cases h3 : w.cmdExit CMD_KEY = 0 <;>
      by_cases h4 : w.cmdExit CMD_CHMOD = 0 <;>
      by_cases h5 : w.cmdExit CMD_INSTALL = 0 <;>
      by_cases h6 : w.cmdExit CMD_SYSTEMCTL = 0 <;>
      by_cases h7 : w.fileExists CONFIG_FILE = true <;>
      simp [he, h1, h2, h3, h4, h5, h6, h7]
  · have hne : w.euid ≠ 0 := he
    simp [mainRun, hne, he]

theorem mainRun_zero_or_one (w : World) :
    (mainRun w).1 = 0 ∨ (mainRun w).1 = 1 := by
  rw [mainRun_fst]
  split_ifs <;> simp

theorem mainRun_eq_zero_iff (w : World) :
    (mainRun w).1 = 0 ↔
      (w.euid = 0 ∧ w.fileExists CONFIG_FILE = true ∧
        ∀ c ∈ checkedCommands, w.cmdExit c = 0) := by
  rw [mainRun_fst]
  split_ifs with h <;> simp_all [checkedCommands]

theorem mainRun_nonroot {w : World} (h : w.euid ≠ 0) : mainRun w = (1, []) := by
  simp [mainRun, h]

theorem cleanup_mem_snd {w : World} {e : Effect}
    (h : e ∈ (cleanup_existing_install w).2) : BenignEffect e := by
  rw [cleanup_existing_install] at h
  rcases seqE_mem_snd h with h | h
  · rw [runCmd_snd] at h
    exact Or.inl ⟨_, List.mem_singleton.mp h⟩
  rcases seqE_mem_snd h with h | h
  · by_cases hf : w.fileExists TOR_LIST_FILE <;> simp [hf] at h
    exact Or.inr (Or.inl ⟨_, h⟩)
  rcases seqE_mem_snd h with h | h
  · by_cases hf : w.fileExists GPG_KEY_FILE <;> simp [hf] at h
    exact Or.inr (Or.inl ⟨_, h⟩)
  rcases seqE_mem_snd h with h | h
  · rw [runCmd_snd] at h
    exact Or.inl ⟨_, List.mem_singleton.mp h⟩
  · rw [runCmd_snd] at h
    exact Or.inl ⟨_, List.mem_singleton.mp h⟩

theorem install_mem_snd {w : World} {e : Effect}
    (h : e ∈ (install_tor_and_proxychains w).2) : BenignEffect e := by
  rw [install_tor_and_proxychains] at h
  rcases seqE_mem_snd h with h | h
  · rw [runCmd_snd] at h
    exact Or.inl ⟨_, List.mem_singleton.mp h⟩
  rcases seqE_mem_snd h with h | h
  · rw [runCmd_snd] at h
    exact Or.inl ⟨_, List.mem_singleton.mp h⟩
  rcases seqE_mem_snd h with h | h
  · exact Or.inr (Or.inr (List.mem_singleton.mp h))
  rcases seqE_mem_snd h with h | h
  · rw [runCmd_snd] at h
    exact Or.inl ⟨_, List.mem_singleton.mp h⟩
  · rw [runCmd_snd] at h
    exact Or.inl ⟨_, List.mem_singleton.mp h⟩

theorem start_mem_snd {w : World} {e : Effect}
    (h : e ∈ (start_tor_and_provide_instructions w).2) : BenignEffect e := by
  rw [start_tor_and_provide_instructions, runCmd_snd] at h
  exact Or.inl ⟨_, List.mem_singleton.mp h⟩

theorem configure_missing {w : World} (h : w.fileExists CONFIG_FILE = false) :
    configure_proxychains w = (some 1, []) := by
  rw [configure_proxychains, if_pos h]

theorem mainRun_mem_snd_missing {w : World} {e : Effect}
    (hc : w.fileExists CONFIG_FILE = false) (h : e ∈ (mainRun w).2) :
    BenignEffect e := by
  by_cases he : w.euid ≠ 0
  · rw [mainRun_nonroot he] at h
    simp at h
  · simp only [mainRun, if_neg he] at h
    rcases seqE_mem_snd h with h | h
    · exact cleanup_mem_snd h
    rcases seqE_mem_snd h with h | h
    · exact install_mem_snd h
    rcases seqE_mem_snd h with h | h
    · rw [configure_missing hc] at h
      simp at h
    · exact start_mem_snd h

/-- Claim C1, as stated, is false: a line that is both a directive and
contains the `[ProxyList]` marker is commented out (the directive branch
wins) and does not mark the section as found. -/
theorem C1_counterexample :
    isDirective "socks [ProxyList]\n" = true ∧
    hasProxyListMarker "socks [ProxyList]\n" = true ∧
    headerFound "socks [ProxyList]\n" = false ∧
    "socks [ProxyList]\n" ∉ readlines (configureBody "socks [ProxyList]\n") ∧
    "# socks [ProxyList]\n" ∈ readlines (configureBody "socks [ProxyList]\n") := by
  decide

/-- Claim C1 (amended): the directive-prefix match takes precedence over
the header match: a line that both starts (stripped) with `socks`/`http`
and contains `[ProxyList]` is written commented out and does not mark the
proxy-list section as found. -/
theorem C1_directive_precedence (line : String)
    (hd : isDirective line = true) ( _hm : hasProxyListMarker line = true) :
    processLine line = "# " ++ line ∧ isHeaderLine line = false := by
  constructor
  · rw [processLine, if_pos hd]
  · rw [isHeaderLine, hd]
    rfl


/-- Witness for C1's amended theorem at the line `socks [ProxyList]`. -/
theorem C1_directive_precedence_witness :
    processLine "socks [ProxyList]\n" = "# " ++ "socks [ProxyList]\n" ∧
    isHeaderLine "socks [ProxyList]\n" = false :=
  C1_directive_precedence "socks [ProxyList]\n" (by decide) (by decide)

/-- Claim C2, as stated, is false: after a first run on `[ProxyList]\n`,
the second run DOES re-disable (comment out) the `socks5 127.0.0.1 9050`
line appended by the first run. -/
theorem C2_counterexample :
    configureStepFs (ConfigFs.mk (some "[ProxyList]\n") none) =
      some ⟨some "[ProxyList]\nsocks5 127.0.0.1 9050\n", some "[ProxyList]\n"⟩ ∧
    configureBody (configureBody "[ProxyList]\n") =
      "[ProxyList]\n# socks5 127.0.0.1 9050\nsocks5 127.0.0.1 9050\n" ∧
    "# socks5 127.0.0.1 9050\n" ∈
      readlines (configureBody (configureBody "[ProxyList]\n")) := by
  decide

/-- Claim C2 (amended): for every newline-terminated content, the first
run appends the `socks5 127.0.0.1 9050` line; the second run re-disables
it (the output contains its commented form) and appends a fresh copy as
the last line; and the second run overwrites the backup with the first
run's output, which differs from the original content. -/
theorem C2_double_run (c : String) (h : EndsNL c) :
    "socks5 127.0.0.1 9050\n" ∈ readlines (configureBody c) ∧
    "# socks5 127.0.0.1 9050\n" ∈ readlines (configureBody (configureBody c)) ∧
    (readlines (configureBody (configureBody c))).getLast? =
      some "socks5 127.0.0.1 9050\n" ∧
    configureStepFs ⟨some (configureBody c), some c⟩ =
      some ⟨some (configureBody (configureBody c)), some (configureBody c)⟩ ∧
    configureBody c ≠ c := by
  have h1 := readlines_configureBody (endsNL_all_proper h)
  have h2 := readlines_configureBody (endsNL_all_proper (endsNL_configureBody c))
  have hmem1 : "socks5 127.0.0.1 9050\n" ∈ readlines (configureBody c) := by
    rw [h1]
    apply List.mem_append_right
    by_cases hf : headerFound c = true
    · rw [if_pos hf]; simp
    · rw [if_neg hf]; simp
  refine ⟨hmem1, ?_, ?_, rfl, ?_⟩
  · rw [h2]
    apply List.mem_append_left
    refine List.mem_map.mpr ⟨"socks5 127.0.0.1 9050\n", hmem1, ?_⟩
    rw [processLine, if_pos (by decide)]
    rfl
  · rw [h2, List.getLast?_append]
    by_cases hf : headerFound (configureBody c) = true
    · rw [if_pos hf]; rfl
    · rw [if_neg hf]; rfl
  · intro he
    rw [he] at h1
    have hlen := congrArg List.length h1
    rw [List.length_append, List.length_map] at hlen
    by_cases hf : headerFound c = true
    · rw [if_pos hf] at hlen; simp at hlen
    · rw [if_neg hf] at hlen; simp at hlen

/-- Witness for C2's amended theorem at the content `[ProxyList]\n`. -/
theorem C2_double_run_witness :
    "socks5 127.0.0.1 9050\n" ∈ readlines (configureBody "[ProxyList]\n") ∧
    "# socks5 127.0.0.1 9050\n" ∈
      readlines (configureBody (configureBody "[ProxyList]\n")) ∧
    (readlines (configureBody (configureBody "[ProxyList]\n"))).getLast? =
      some "socks5 127.0.0.1 9050\n" ∧
    configureStepFs ⟨some (configureBody "[ProxyList]\n"), some "[ProxyList]\n"⟩ =
      some ⟨some (configureBody (configureBody "[ProxyList]\n")),
            some (configureBody "[ProxyList]\n")⟩ ∧
    configureBody "[ProxyList]\n" ≠ "[ProxyList]\n" :=
  C2_double_run "[ProxyList]\n" (by decide)

/-- Claim C3, as stated, is false: on the input `# comment only\n` the
rewrite does not put a blank line between the synthesized header and the
appended directive. -/
theorem C3_counterexample :
    configureBody "# comment only\n" ≠
      "# comment only\n\n[ProxyList]\n\nsocks5 127.0.0.1 9050\n" := by
  decide

/-- Claim C3 (amended): on the input `# comment only\n` the rewrite
produces `# comment only\n\n[ProxyList]\nsocks5 127.0.0.1 9050\n` (no
blank line between the synthesized header and the directive). -/
theorem C3_comment_only_output :
    configureBody "# comment only\n" =
      "# comment only\n\n[ProxyList]\nsocks5 127.0.0.1 9050\n" := by
  decide

/-- Claim C4, as stated, is false twice over: when a pre-existing
directive equals the appended Tor entry, the output does contain the
undisabled original (first conjunct); and when the final directive line
lacks a trailing newline, its commented form fuses with the appended
entry and is not an output line (second conjunct). -/
theorem C4_counterexample :
    (isDirective "socks5 127.0.0.1 9050\n" = true ∧
     "socks5 127.0.0.1 9050\n" ∈ readlines "socks5 127.0.0.1 9050\n[ProxyList]\n" ∧
     "socks5 127.0.0.1 9050\n" ∈
       readlines (configureBody "socks5 127.0.0.1 9050\n[ProxyList]\n")) ∧
    (isDirective "socks x" = true ∧
     "socks x" ∈ readlines "[ProxyList]\nsocks x" ∧
     ("# " ++ "socks x") ∉ readlines (configureBody "[ProxyList]\nsocks x")) := by
  decide

/-- Claim C4 (amended): for every newline-terminated input and every
directive line of it, the output contains the commented line
`# ` + original; and the only way the undisabled original can occur as an
output line is for it to equal the appended `socks5 127.0.0.1 9050` entry
itself. -/
theorem C4_directives_disabled (c : String) (h : EndsNL c) :
    ∀ line ∈ readlines c, isDirective line = true →
      ("# " ++ line) ∈ readlines (configureBody c) ∧
      (line ∈ readlines (configureBody c) → line = "socks5 127.0.0.1 9050\n") := by
  intro line hline hdir
  rw [readlines_configureBody (endsNL_all_proper h)]
  constructor
  · apply List.mem_append_left
    exact List.mem_map.mpr ⟨line, hline, by rw [processLine, if_pos hdir]⟩
  · intro hmem
    rcases List.mem_append.mp hmem with h1 | h1
    · obtain ⟨x, _hx, hxe⟩ := List.mem_map.mp h1
      by_cases hdx : isDirective x
      · rw [processLine, if_pos hdx] at hxe
        rw [← hxe, isDirective_hash] at hdir
        exact absurd hdir (by simp)
      · rw [processLine, if_neg hdx] at hxe
        rw [hxe] at hdx
        exact absurd hdir hdx
    · by_cases hf : headerFound c = true
      · rw [if_pos hf] at h1
        simpa using h1
      · rw [if_neg hf] at h1
        rcases List.mem_cons.mp h1 with h2 | h2
        · rw [h2] at hdir; exact absurd hdir (by decide)
        · rcases List.mem_cons.mp h2 with h3 | h3
          · rw [h3] at hdir; exact absurd hdir (by decide)
          · simpa using h3

/-- Witness for C4's amended theorem: input `socks a\n[ProxyList]\n`,
directive line `socks a\n`. -/
theorem C4_directives_disabled_witness :
    ("# " ++ "socks a\n") ∈ readlines (configureBody "socks a\n[ProxyList]\n") ∧
    ("socks a\n" ∈ readlines (configureBody "socks a\n[ProxyList]\n") →
      "socks a\n" = "socks5 127.0.0.1 9050\n") :=
  C4_directives_disabled "socks a\n[ProxyList]\n" (by decide)
    "socks a\n" (by decide) (by decide)

/-- Claim C5, as stated, is false twice over: a directive line containing
the marker is not copied through unchanged (first conjunct); and when the
final line lacks a trailing newline the appended entry fuses with it, so
no output line equals the entry (second conjunct). -/
theorem C5_counterexample :
    (hasProxyListMarker "socks [ProxyList]\n" = true ∧
     "socks [ProxyList]\n" ∈ readlines "socks [ProxyList]\n" ∧
     "socks [ProxyList]\n" ∉ readlines (configureBody "socks [ProxyList]\n")) ∧
    (hasProxyListMarker "[ProxyList]\n" = true ∧
     "[ProxyList]\n" ∈ readlines "[ProxyList]\nx" ∧
     (readlines (configureBody "[ProxyList]\nx")).count "socks5 127.0.0.1 9050\n"
       = 0) := by
  decide

/-- Claim C5 (amended): for every newline-terminated input containing at
least one non-directive line with the `[ProxyList]` marker: the output
contains the appended `socks5 127.0.0.1 9050` line exactly once, as its
last line; every non-directive marker line is copied through unchanged;
and every directive line containing the marker appears only commented. -/
theorem C5_single_append (c : String) (h : EndsNL c)
    (hex : ∃ l ∈ readlines c, isHeaderLine l = true) :
    (readlines (configureBody c)).count "socks5 127.0.0.1 9050\n" = 1 ∧
    (readlines (configureBody c)).getLast? = some "socks5 127.0.0.1 9050\n" ∧
    (∀ l ∈ readlines c, isHeaderLine l = true → l ∈ readlines (configureBody c)) ∧
    (∀ l ∈ readlines c, isDirective l = true → hasProxyListMarker l = true →
      ("# " ++ l) ∈ readlines (configureBody c)) := by
  have hf : headerFound c = true := by
    rw [headerFound_eq, List.any_eq_true]
    obtain ⟨l, hl, hh⟩ := hex
    exact ⟨l, hl, hh⟩
  have hout := readlines_configureBody (endsNL_all_proper h)
  rw [if_pos hf] at hout
  refine ⟨?_, ?_, ?_, ?_⟩
  · rw [hout, List.count_append]
    have hzero : ((readlines c).map processLine).count "socks5 127.0.0.1 9050\n" = 0 := by
      rw [List.count_eq_zero]
      intro hmem
      obtain ⟨x, _hx, hxe⟩ := List.mem_map.mp hmem
      exact processLine_ne_entry x hxe
    rw [hzero]
    rfl
  · rw [hout]
    exact List.getLast?_concat _
  · intro l hl hh
    rw [hout]
    apply List.mem_append_left
    have hd : isDirective l = false := by
      rw [isHeaderLine, Bool.and_eq_true] at hh
      simpa using hh.1
    exact List.mem_map.mpr ⟨l, hl, by rw [processLine, if_neg (by simp [hd])]⟩
  · intro l hl hd _hm
    rw [hout]
    apply List.mem_append_left
    exact List.mem_map.mpr ⟨l, hl, by rw [processLine, if_pos hd]⟩

/-- Witness for C5's amended theorem at the content
`socks a\n[ProxyList]\nsocks [ProxyList]\n`. -/
theorem C5_single_append_witness :
    (readlines (configureBody "socks a\n[ProxyList]\nsocks [ProxyList]\n")).count
      "socks5 127.0.0.1 9050\n" = 1 ∧
    (readlines (configureBody "socks a\n[ProxyList]\nsocks [ProxyList]\n")).getLast?
      = some "socks5 127.0.0.1 9050\n" ∧
    (∀ l ∈ readlines "socks a\n[ProxyList]\nsocks [ProxyList]\n",
      isHeaderLine l = true →
        l ∈ readlines (configureBody "socks a\n[ProxyList]\nsocks [ProxyList]\n")) ∧
    (∀ l ∈ readlines "socks a\n[ProxyList]\nsocks [ProxyList]\n",
      isDirective l = true → hasProxyListMarker l = true →
        ("# " ++ l) ∈
          readlines (configureBody "socks a\n[ProxyList]\nsocks [ProxyList]\n")) :=
  C5_single_append "socks a\n[ProxyList]\nsocks [ProxyList]\n" (by decide)
    ⟨"[ProxyList]\n", by decide, by decide⟩

/-- Claim C6, as stated, is false: in `[ProxyList]\nx` the final line `x`
is neither a directive nor a marker line, yet it does not appear as a
line of the output (it fuses with the appended entry). -/
theorem C6_counterexample :
    isDirective "x" = false ∧ hasProxyListMarker "x" = false ∧
    "x" ∈ readlines "[ProxyList]\nx" ∧
    "x" ∉ readlines (configureBody "[ProxyList]\nx") := by
  decide

/-- Claim C6 (amended): for every newline-terminated input, the lines
that are neither directives nor marker lines appear unchanged and in
their original relative order among the output lines (as a sublist). -/
theorem C6_frame (c : String) (h : EndsNL c) :
    List.Sublist
      ((readlines c).filter fun l => !isDirective l && !hasProxyListMarker l)
      (readlines (configureBody c)) := by
  rw [readlines_configureBody (endsNL_all_proper h)]
  exact (filter_other_sublist (readlines c)).trans
    (List.sublist_append_left _ _)

/-- Witness for C6's amended theorem at the content
`keep me\n[ProxyList]\nsocks5 1.2.3.4 1080\n`. -/
theorem C6_frame_witness :
    List.Sublist
      ((readlines "keep me\n[ProxyList]\nsocks5 1.2.3.4 1080\n").filter
        fun l => !isDirective l && !hasProxyListMarker l)
      (readlines (configureBody "keep me\n[ProxyList]\nsocks5 1.2.3.4 1080\n")) :=
  C6_frame "keep me\n[ProxyList]\nsocks5 1.2.3.4 1080\n" (by decide)

/-- Claim C9, as stated, is false in the no-header case: on the input `x`
(no final newline, no marker) the synthesized text starts with a newline,
so the appended directive does appear on its own line rather than fusing
with the last input line. -/
theorem C9_counterexample :
    readlines (configureBody "x") =
      ["x\n", "[ProxyList]\n", "socks5 127.0.0.1 9050\n"] ∧
    "socks5 127.0.0.1 9050\n" ∈ readlines (configureBody "x") := by
  decide

/-- Claim C9 (amended): write the input as proper lines `ps` followed by
a final fragment `tl` without a newline. In the header-found case the
appended directive is written immediately after the fragment and fuses
with it into a single output line, and no output line equals the
directive. In the no-header case the synthesized block's leading newline
terminates the fragment, and the directive ends up on its own line. -/
theorem C9_unterminated_last_line (ps : List String) (tl : String)
    (hps : ∀ e ∈ ps, ProperLine e) (h1 : tl.data ≠ []) (h2 : '\n' ∉ tl.data) :
    (headerFound (strConcat ps ++ tl) = true →
      readlines (configureBody (strConcat ps ++ tl)) =
        ps.map processLine ++ [processLine tl ++ "socks5 127.0.0.1 9050\n"] ∧
      "socks5 127.0.0.1 9050\n" ∉ readlines (configureBody (strConcat ps ++ tl))) ∧
    (headerFound (strConcat ps ++ tl) = false →
      readlines (configureBody (strConcat ps ++ tl)) =
        ps.map processLine ++
          [processLine tl ++ "\n", "[ProxyList]\n", "socks5 127.0.0.1 9050\n"]) := by
  have hrl : readlines (strConcat ps ++ tl) = ps ++ [tl] := by
    rw [strConcat_append_readlines ps hps tl, readlines_noNL h1 h2]
  have hbody : (configLoop (readlines (strConcat ps ++ tl))).1 =
      strConcat (ps.map processLine) ++ processLine tl := by
    rw [hrl, configLoop_eq]
    show strConcat ((ps ++ [tl]).map processLine) = _
    rw [List.map_append, strConcat_append]
    show _ ++ (processLine tl ++ strConcat []) = _
    rw [show strConcat [] = "" from rfl, String.append_empty]
  have hpm : ∀ e ∈ ps.map processLine, ProperLine e := by
    intro e he
    obtain ⟨x, hx, hxe⟩ := List.mem_map.mp he
    exact hxe ▸ processLine_proper (hps x hx)
  constructor
  · intro hf
    have ho : configureBody (strConcat ps ++ tl) =
        strConcat (ps.map processLine) ++
          (processLine tl ++ "socks5 127.0.0.1 9050\n") := by
      simp only [configureBody]
      rw [if_pos (show (configLoop (readlines (strConcat ps ++ tl))).2 = true from hf)]
      rw [hbody, String.append_assoc]
    have hfused : ProperLine (processLine tl ++ "socks5 127.0.0.1 9050\n") := by
      refine properLine_mk
        (b := (processLine tl).data ++ ("socks5 127.0.0.1 9050" : String).data) ?_ ?_
      · intro hmem
        rcases List.mem_append.mp hmem with hm1 | hm1
        · exact noNL_processLine h2 hm1
        · exact absurd hm1 (by decide)
      · rw [String.data_append,
          show ("socks5 127.0.0.1 9050\n" : String).data =
            ("socks5 127.0.0.1 9050" : String).data ++ ['\n'] from rfl,
          List.append_assoc]
    have hout : readlines (configureBody (strConcat ps ++ tl)) =
        ps.map processLine ++ [processLine tl ++ "socks5 127.0.0.1 9050\n"] := by
      rw [ho, strConcat_append_readlines _ hpm, readlines_proper_single hfused]
    refine ⟨hout, ?_⟩
    rw [hout]
    intro hmem
    rcases List.mem_append.mp hmem with hm1 | hm1
    · obtain ⟨x, _hx, hxe⟩ := List.mem_map.mp hm1
      exact processLine_ne_entry x hxe
    · have heq : ("socks5 127.0.0.1 9050\n" : String) =
          processLine tl ++ "socks5 127.0.0.1 9050\n" := List.mem_singleton.mp hm1
      have hlen := congrArg (fun s : String => s.data.length) heq
      simp only [String.data_append, List.length_append] at hlen
      have hzero : (processLine tl).data.length = 0 := by omega
      exact processLine_data_ne_nil h1 (List.length_eq_zero.mp hzero)
  · intro hf
    have hnot : ¬ (configLoop (readlines (strConcat ps ++ tl))).2 = true := by
      rw [show (configLoop (readlines (strConcat ps ++ tl))).2 =
        headerFound (strConcat ps ++ tl) from rfl, hf]
      simp
    have hsplit : ("\n[ProxyList]\n" ++ "socks5 127.0.0.1 9050\n" : String) =
        "\n" ++ "[ProxyList]\nsocks5 127.0.0.1 9050\n" := by decide
    have ho : configureBody (strConcat ps ++ tl) =
        strConcat (ps.map processLine) ++
          ((processLine tl ++ "\n") ++ "[ProxyList]\nsocks5 127.0.0.1 9050\n") := by
      simp only [configureBody]
      rw [if_neg hnot, hbody, hsplit]
      simp [String.append_assoc]
    have hproper : ProperLine (processLine tl ++ "\n") :=
      properLine_mk (b := (processLine tl).data) (noNL_processLine h2)
        (by rw [String.data_append])
    rw [ho, strConcat_append_readlines _ hpm, readlines_cons_of_proper hproper,
      show readlines "[ProxyList]\nsocks5 127.0.0.1 9050\n" =
        ["[ProxyList]\n", "socks5 127.0.0.1 9050\n"] from by decide]

/-- Witness for C9's amended theorem: one proper line `[ProxyList]`
followed by the fragment `x` (header-found case), and the no-header case
at the single fragment `x` with no proper lines. -/
theorem C9_unterminated_last_line_witness :
    (headerFound (strConcat ["[ProxyList]\n"] ++ "x") = true →
      readlines (configureBody (strConcat ["[ProxyList]\n"] ++ "x")) =
        ["[ProxyList]\n"].map processLine ++
          [processLine "x" ++ "socks5 127.0.0.1 9050\n"] ∧
      "socks5 127.0.0.1 9050\n" ∉
        readlines (configureBody (strConcat ["[ProxyList]\n"] ++ "x"))) ∧
    (headerFound (strConcat ["[ProxyList]\n"] ++ "x") = false →
      readlines (configureBody (strConcat ["[ProxyList]\n"] ++ "x")) =
        ["[ProxyList]\n"].map processLine ++
          [processLine "x" ++ "\n", "[ProxyList]\n", "socks5 127.0.0.1 9050\n"]) :=
  C9_unterminated_last_line ["[ProxyList]\n"] "x" (by decide) (by decide) (by decide)

/-- Claim C10, confirmed: any non-directive line containing the
`[ProxyList]` substring counts as the section header; when one is
present the rewrite appends only the directive (no header is
synthesized); in particular the already-commented header `# [ProxyList]`
suppresses synthesis and the output has no uncommented header line. -/
theorem C10_substring_header (c : String)
    (hex : ∃ l ∈ readlines c, hasProxyListMarker l = true ∧ isDirective l = false) :
    headerFound c = true ∧
    configureBody c = (configLoop (readlines c)).1 ++ "socks5 127.0.0.1 9050\n" ∧
    configureBody "# [ProxyList]\n" = "# [ProxyList]\nsocks5 127.0.0.1 9050\n" ∧
    (∀ l ∈ readlines (configureBody "# [ProxyList]\n"),
      hasProxyListMarker l = true → pyStartswith l "#" = true) := by
  have hf : headerFound c = true := by
    rw [headerFound_eq, List.any_eq_true]
    obtain ⟨l, hl, hm, hd⟩ := hex
    exact ⟨l, hl, by rw [isHeaderLine, hd, hm]; rfl⟩
  refine ⟨hf, ?_, by decide, by decide⟩
  simp only [configureBody]
  rw [if_pos (show (configLoop (readlines c)).2 = true from hf)]

/-- Witness for C10's theorem at the content `# [ProxyList]\n`. -/
theorem C10_substring_header_witness :
    headerFound "# [ProxyList]\n" = true ∧
    configureBody "# [ProxyList]\n" =
      (configLoop (readlines "# [ProxyList]\n")).1 ++ "socks5 127.0.0.1 9050\n" ∧
    configureBody "# [ProxyList]\n" = "# [ProxyList]\nsocks5 127.0.0.1 9050\n" ∧
    (∀ l ∈ readlines (configureBody "# [ProxyList]\n"),
      hasProxyListMarker l = true → pyStartswith l "#" = true) :=
  C10_substring_header "# [ProxyList]\n"
    ⟨"# [ProxyList]\n", by decide, by decide, by decide⟩

/-- Claim C7, confirmed: the process exit code is 0 exactly on full
completion (root, config file present, every must-succeed command
returning 0) and 1 otherwise — in particular on non-root execution,
missing configuration file, or any checked command failure; and a
non-root invocation performs no effect at all before exiting. -/
theorem C7_exit_codes (w : World) :
    ((mainRun w).1 = 0 ∨ (mainRun w).1 = 1) ∧
    ((mainRun w).1 = 0 ↔
      (w.euid = 0 ∧ w.fileExists CONFIG_FILE = true ∧
        ∀ c ∈ checkedCommands, w.cmdExit c = 0)) ∧
    (w.euid ≠ 0 → mainRun w = (1, [])) :=
  ⟨mainRun_zero_or_one w, mainRun_eq_zero_iff w, fun h => mainRun_nonroot h⟩

/-- Witness for C7 at two concrete worlds: a root world where everything
succeeds (exit 0) and a non-root world (exit 1, no effects). -/
theorem C7_exit_codes_witness :
    (mainRun ⟨0, fun _ => true, fun _ => 0, ""⟩).1 = 0 ∧
    mainRun ⟨1000, fun _ => true, fun _ => 0, ""⟩ = (1, []) :=
  ⟨(C7_exit_codes ⟨0, fun _ => true, fun _ => 0, ""⟩).2.1.mpr
      ⟨rfl, rfl, by decide⟩,
    (C7_exit_codes ⟨1000, fun _ => true, fun _ => 0, ""⟩).2.2 (by decide)⟩

/-- Claim C8, confirmed: when the configuration file is missing, the
config rewrite step aborts with exit 1 having performed no effect, the
whole pipeline exits with code 1, and no step of the run copies a backup
or writes the configuration file. -/
theorem C8_missing_config (w : World)
    (h : w.fileExists CONFIG_FILE = false) :
    configure_proxychains w = (some 1, []) ∧
    (mainRun w).1 = 1 ∧
    ∀ e ∈ (mainRun w).2,
      (∀ s d, e ≠ Effect.copyFile s d) ∧
      ∀ s, e ≠ Effect.writeFile CONFIG_FILE s := by
  refine ⟨configure_missing h, ?_, ?_⟩
  · rcases mainRun_zero_or_one w with h0 | h1
    · exfalso
      have h2 := (mainRun_eq_zero_iff w).mp h0
      rw [h2.2.1] at h
      exact Bool.noConfusion h
    · exact h1
  · intro e he
    rcases mainRun_mem_snd_missing h he with ⟨cmd, rfl⟩ | ⟨p, rfl⟩ | rfl
    · exact ⟨fun s d => by simp, fun s => by simp⟩
    · exact ⟨fun s d => by simp, fun s => by simp⟩
    · refine ⟨fun s d => by simp, fun s => ?_⟩
      intro hcontra
      have : TOR_LIST_FILE = CONFIG_FILE := by injection hcontra
      exact absurd this (by decide)

/-- Witness for C8 at a root world whose filesystem has no files. -/
theorem C8_missing_config_witness :
    configure_proxychains ⟨0, fun _ => false, fun _ => 0, ""⟩ = (some 1, []) ∧
    (mainRun ⟨0, fun _ => false, fun _ => 0, ""⟩).1 = 1 ∧
    ∀ e ∈ (mainRun ⟨0, fun _ => false, fun _ => 0, ""⟩).2,
      (∀ s d, e ≠ Effect.copyFile s d) ∧
      ∀ s, e ≠ Effect.writeFile CONFIG_FILE s :=
  C8_missing_config ⟨0, fun _ => false, fun _ => 0, ""⟩ rfl

end Toxy
